import Mathlib

/-!
# Verification of the papyrusai folder-conversion pipeline

Shallow embedding of the papyrusai repository (`papyrusai/converting.py`,
`papyrusai/writing.py`, `papyrusai/reading/base.py`, `papyrusai/reading/gpt.py`,
`papyrusai/reading/mistral.py`) together with theorems settling the spec
claims about it.

The embedding models:
* filename derivation and the skip/dispatch filter of `run_on_folder`;
* the cooperative scheduler with an optional `asyncio.Semaphore` as a
  small-step transition system;
* `convert_image_from_path` acting on an explicit filesystem map;
* reader construction (normalization at `__init__` time) and the network
  requests issued by `read()`;
* the HEIC decode fallback chain of `Reader._load_heic_as_pillow_image`.
-/

namespace Papyrus

/-! ## Filename-level helpers from `converting.py` and `os.path` -/

/-- The supported extension set of `run_on_folder`
(`{".jpg", ".jpeg", ".png", ".heic", ".heif"}`). -/
def supported_extensions : List String :=
  [".jpg", ".jpeg", ".png", ".heic", ".heif"]

/-- Python `str.lower()` restricted to the ASCII case used for extensions. -/
def pyLower (s : String) : String :=
  ⟨s.data.map Char.toLower⟩

/-- Index of the last `'.'` in a character list, if any. -/
def lastDotIdx (cs : List Char) : Option Nat :=
  match cs.reverse.findIdx? (· = '.') with
  | none => none
  | some k => some (cs.length - 1 - k)

/-- `os.path.splitext(p)[1]` for a bare filename (no path separators):
the suffix starting at the last dot, except that a filename whose characters
before that dot are all dots has no extension (e.g. `".heic"`). -/
def splitextExt (p : String) : String :=
  match lastDotIdx p.data with
  | none => ""
  | some i =>
    if (p.data.take i).any (· ≠ '.') then ⟨p.data.drop i⟩ else ""

/-- Python `path.split('.')[0]`: everything before the first dot. -/
def dotSplitHead (p : String) : String :=
  ⟨p.data.takeWhile (· ≠ '.')⟩

/-- The output filename derived inside `_convert_path`
(`f"output_{path.split('.')[0]}.txt"`, converting.py line 43). -/
def convertPathOutputFn (path : String) : String :=
  "output_" ++ dotSplitHead path ++ ".txt"

/-- The output filename derived in the dispatch loop of `run_on_folder`
(`f"output_{path.split('.')[0]}.txt"`, converting.py line 57). -/
def filterOutputFn (path : String) : String :=
  "output_" ++ dotSplitHead path ++ ".txt"

/-- An input entry is eligible when its final extension, lowercased, is in the
supported set (converting.py lines 54-55). -/
def eligible (path : String) : Bool :=
  decide (pyLower (splitextExt path) ∈ supported_extensions)

/-! ## The dispatch filter of `run_on_folder` (converting.py lines 53-61) -/

/-- Python string comparison: lexicographic on code points. -/
def charListLe : List Char → List Char → Bool
  | [], _ => true
  | _ :: _, [] => false
  | c :: cs, d :: ds =>
    if c.toNat < d.toNat then true
    else if d.toNat < c.toNat then false
    else charListLe cs ds

/-- `a <= b` on Python strings. -/
def pyStrLe (a b : String) : Bool :=
  charListLe a.data b.data

/-- Insertion of one string into a sorted list of strings. -/
def insertSorted (x : String) : List String → List String
  | [] => [x]
  | y :: ys => if pyStrLe x y then x :: y :: ys else y :: insertSorted x ys

/-- `sorted(...)` over the directory listing (converting.py line 53). -/
def pySorted : List String → List String
  | [] => []
  | x :: xs => insertSorted x (pySorted xs)

/-- The filter loop of `run_on_folder`: walk the sorted listing, skip entries
with unsupported extensions, skip entries whose derived output name is in the
(mutable) `existing_outputs` set, reserve the name otherwise, and collect the
dispatched entries.  Returns the dispatched entries together with the final
`existing_outputs` set. -/
def selectTasksAux : List String → List String → List String × List String
  | [], existing => ([], existing)
  | p :: rest, existing =>
    if ¬ eligible p then
      selectTasksAux rest existing
    else if filterOutputFn p ∈ existing then
      selectTasksAux rest existing
    else
      let r := selectTasksAux rest (filterOutputFn p :: existing)
      (p :: r.1, r.2)

/-- The entries of `input_folder` that `run_on_folder` dispatches as
conversion tasks, given the snapshot `existing` of `output_folder`
(`existing_outputs = set(os.listdir(output_folder))`). -/
def dispatchedTasks (inputs existing : List String) : List String :=
  (selectTasksAux (pySorted inputs) existing).1

/-- The `output_folder` listing after a run in which every dispatched task
completed successfully: the snapshot plus one written output per task. -/
def outputsAfterRun (inputs existing : List String) : List String :=
  (dispatchedTasks inputs existing).map filterOutputFn ++ existing

/-! ## The cooperative scheduler of `run_on_folder`

`run_on_folder` creates one `asyncio` task per dispatched entry; each task's
`_process` coroutine acquires the semaphore (when one exists) around its
network-bound `_convert_path` step and releases it afterwards
(converting.py lines 32-39).  We model this as a small-step transition
system: a task is `pending` before `_process` enters the semaphore block,
`running` while `_convert_path` is executing, and `done` afterwards. -/

/-- Phase of one dispatched conversion task. -/
inductive TaskPhase where
  | pending
  | running
  | done
deriving DecidableEq, Repr

/-- Scheduler state: the phase of every task plus the number of free
semaphore permits (`none` when no semaphore was created). -/
structure SchedState where
  phases : List TaskPhase
  sem : Option Nat
deriving DecidableEq, Repr

/-- `asyncio.Semaphore(max_concurrency) if max_concurrency else None`
(converting.py line 32): Python truthiness maps both `None` and `0` to "no
semaphore". -/
def mkSemaphore : Option Nat → Option Nat
  | none => none
  | some n => if n = 0 then none else some n

/-- Effect of acquiring the semaphore on the free-permit count. -/
def semAcquired : Option Nat → Option Nat
  | none => none
  | some k => some (k - 1)

/-- Effect of releasing the semaphore on the free-permit count. -/
def semReleased : Option Nat → Option Nat
  | none => none
  | some k => some (k + 1)

/-- The free-permit count after `k` acquisitions. -/
def semMinus : Option Nat → Nat → Option Nat
  | none, _ => none
  | some n, k => some (n - k)

/-- Number of tasks currently executing their conversion step. -/
def runningCount (s : SchedState) : Nat :=
  s.phases.countP (fun ph => ph == TaskPhase.running)

/-- Initial scheduler state: all tasks pending, all permits free. -/
def initState (numTasks : Nat) (sem : Option Nat) : SchedState :=
  ⟨List.replicate numTasks TaskPhase.pending, sem⟩

/-- One scheduler step: a pending task may start its conversion only when no
semaphore exists or a permit is free (taking one); a running task may finish
(returning its permit). -/
inductive SchedStep : SchedState → SchedState → Prop where
  | start (s : SchedState) (i : Nat)
      (hph : s.phases[i]? = some TaskPhase.pending)
      (hsem : s.sem = none ∨ ∃ k, s.sem = some (k + 1)) :
      SchedStep s ⟨s.phases.set i TaskPhase.running, semAcquired s.sem⟩
  | finish (s : SchedState) (i : Nat)
      (hph : s.phases[i]? = some TaskPhase.running) :
      SchedStep s ⟨s.phases.set i TaskPhase.done, semReleased s.sem⟩

/-- States reachable during a run with `numTasks` dispatched tasks and
semaphore `sem`. -/
def Reachable (numTasks : Nat) (sem : Option Nat) (s : SchedState) : Prop :=
  Relation.ReflTransGen SchedStep (initState numTasks sem) s

/-- Abstract description of one `run_on_folder` invocation: the dispatched
tasks and the semaphore it creates. -/
structure FolderRun where
  tasks : List String
  sem : Option Nat
deriving DecidableEq, Repr

/-- `run_on_folder(promptable, input_folder, output_folder, max_concurrency)`
(converting.py lines 10-67), abstracted over the directory listings: it
snapshots `output_folder`, filters/dispatches the entries of `input_folder`,
and runs them under `mkSemaphore max_concurrency`. -/
def run_on_folder (inputs existing : List String)
    (max_concurrency : Option Nat) : FolderRun :=
  ⟨dispatchedTasks inputs existing, mkSemaphore max_concurrency⟩

/-- `run_on_folder_sync` (converting.py lines 70-84): a blocking wrapper that
calls `asyncio.run(run_on_folder(...))` with the very same arguments. -/
def run_on_folder_sync (inputs existing : List String)
    (max_concurrency : Option Nat) : FolderRun :=
  run_on_folder inputs existing max_concurrency

/-- Scheduler states reachable during a given folder run. -/
def FolderRun.ReachableState (r : FolderRun) (s : SchedState) : Prop :=
  Reachable r.tasks.length r.sem s

/-! ## `writing.py` and `convert_image_from_path` -/

/-- A filesystem, as a finite map from paths to file contents. -/
def FileSystem := List (String × String)

/-- Look up the content of a file. -/
def fsRead (fs : FileSystem) (p : String) : Option String :=
  (fs.find? (fun kv => kv.1 == p)).map (·.2)

/-- `FileWriter` (writing.py lines 12-19): construction only records the
destination path; no filesystem operation happens until `write`. -/
structure FileWriter where
  write_path : String

/-- `FileWriter.write` (writing.py lines 17-19): `open(path, "w")` truncates
or creates the destination, which afterwards holds exactly `content`. -/
def FileWriter.write (w : FileWriter) (fs : FileSystem) (content : String) :
    FileSystem :=
  (w.write_path, content) :: fs.filter (fun kv => kv.1 != w.write_path)

/-- The result of `Reader.encode_image` (reading/base.py lines 36-39): the
base64 payload and the MIME type. -/
structure NormalizedImage where
  encoded : String
  mime : String
deriving DecidableEq, Repr

/-- A network request issued by a reader. -/
structure NetworkRequest where
  url : String
  payload : String
deriving DecidableEq, Repr

/-- `MistralOCRReader` state after `__init__` (reading/mistral.py lines
8-11): the prompt and the already-normalized image. -/
structure MistralOCRReader where
  prompt : String
  encoded_image : String
  mime_type : String
deriving DecidableEq, Repr

/-- `MistralOCRReader.__init__`: stores the prompt, then normalizes the image
(`self.encode_image(path_to_image)`).  `encodeResult` is the outcome of that
normalization; if it raises, construction fails and no reader exists. -/
def mkMistralOCRReader (prompt : String)
    (encodeResult : Except String NormalizedImage) :
    Except String MistralOCRReader :=
  match encodeResult with
  | .error e => .error e
  | .ok img => .ok ⟨prompt, img.encoded, img.mime⟩

/-- `GPTImageReader` state after `__init__` (reading/gpt.py lines 11-22). -/
structure GPTImageReader where
  prompt : String
  model_name : String
  heic_output_format : String
  encoded_image : String
  mime_type : String
deriving DecidableEq, Repr

/-- `GPTImageReader.__init__`: stores prompt, model name and lowercased HEIC
target, then normalizes the image; a normalization failure propagates and no
reader exists. -/
def mkGPTImageReader (prompt model_name heic_output_format : String)
    (encodeResult : Except String NormalizedImage) :
    Except String GPTImageReader :=
  match encodeResult with
  | .error e => .error e
  | .ok img =>
    .ok ⟨prompt, model_name, pyLower heic_output_format, img.encoded, img.mime⟩

/-- The inline data URL both readers embed in their requests. -/
def dataUrl (mime encoded : String) : String :=
  "data:" ++ mime ++ ";base64," ++ encoded

/-- The single POST issued by `GPTImageReader.read` (gpt.py lines 24-30). -/
def GPTImageReader.readRequest (r : GPTImageReader) : NetworkRequest :=
  ⟨"https://api.openai.com/v1/chat/completions",
    dataUrl r.mime_type r.encoded_image⟩

/-- The OCR call issued by `MistralOCRReader.read` (mistral.py lines 13-20). -/
def MistralOCRReader.ocrRequest (r : MistralOCRReader) : NetworkRequest :=
  ⟨"mistral-ocr-latest", dataUrl r.mime_type r.encoded_image⟩

/-- The chat call issued by `MistralOCRReader.read` (mistral.py lines 21-26):
its prompt is the stored prompt, a fixed separator, and the OCR markdown. -/
def MistralOCRReader.chatRequest (r : MistralOCRReader) (markdown : String) :
    NetworkRequest :=
  ⟨"mistral-medium-latest",
    r.prompt ++ "\n\n======================\n\nNow the part I\x27d like to convert: "
      ++ markdown⟩

/-- Construct a `GPTImageReader` and call `read()`, recording every network
request issued along the way.  `respond` is the remote endpoint. -/
def gptConstructAndRead (prompt model_name heic_output_format : String)
    (encodeResult : Except String NormalizedImage)
    (respond : NetworkRequest → String) :
    List NetworkRequest × Except String String :=
  match mkGPTImageReader prompt model_name heic_output_format encodeResult with
  | .error e => ([], .error e)
  | .ok r => ([r.readRequest], .ok (respond r.readRequest))

/-- Construct a `MistralOCRReader` and call `read()`, recording every network
request issued along the way.  `ocrRespond` returns the concatenated page
markdown, `chatRespond` the chat completion. -/
def mistralConstructAndRead (prompt : String)
    (encodeResult : Except String NormalizedImage)
    (ocrRespond chatRespond : NetworkRequest → String) :
    List NetworkRequest × Except String String :=
  match mkMistralOCRReader prompt encodeResult with
  | .error e => ([], .error e)
  | .ok r =>
    let ocrReq := r.ocrRequest
    let chatReq := r.chatRequest (ocrRespond ocrReq)
    ([ocrReq, chatReq], .ok (chatRespond chatReq))

/-- `convert_image_from_path` (converting.py lines 87-94): build a
`FileWriter` (no filesystem effect), construct a `MistralOCRReader`
(normalization may fail), call `read()` (may fail), and only then write the
result to `save_path`.  Returns the outcome and the filesystem afterwards. -/
def convert_image_from_path (prompt : String)
    (encodeResult : Except String NormalizedImage)
    (readResult : MistralOCRReader → Except String String)
    (save_path : String) (fs : FileSystem) :
    Except String Unit × FileSystem :=
  let writer : FileWriter := ⟨save_path⟩
  match mkMistralOCRReader prompt encodeResult with
  | .error e => (.error e, fs)
  | .ok reader =>
    match readResult reader with
    | .error e => (.error e, fs)
    | .ok text => (.ok (), writer.write fs text)

/-! ## The HEIC decode fallback chain (reading/base.py lines 84-161) -/

/-- Outcome of one `_try_open` attempt inside `_load_heic_as_pillow_image`:
success, a collected failure message, or a re-raised `ValueError` (one whose
message lacks the `"Metadata not correctly assigned"` marker).  Images are
abstracted as naturals. -/
inductive TryOpenResult where
  | ok (img : Nat)
  | collect (msg : String)
  | raised (msg : String)
deriving DecidableEq, Repr

/-- Keep-first deduplication, modelling the Python set comprehension
`{msg for msg in attempts if msg}` up to iteration order. -/
def dedupKeepFirst : List String → List String → List String
  | [], _ => []
  | x :: xs, seen =>
    if x ∈ seen then dedupKeepFirst xs seen
    else x :: dedupKeepFirst xs (x :: seen)

/-- `"; ".join({msg for msg in attempts if msg})` (base.py line 139). -/
def heicDetails (attempts : List String) : String :=
  String.intercalate "; " (dedupKeepFirst (attempts.filter (fun m => m ≠ "")) [])

/-- `_convert_heic_with_external_tool` (base.py lines 146-161): try each
available converter in order; on success return its image, on failure append
the error message to the shared `attempts` list and fall through. -/
def tryExternalTools : List (Except String Nat) → List String →
    Option Nat × List String
  | [], attempts => (none, attempts)
  | .ok img :: _, attempts => (some img, attempts)
  | .error e :: rest, attempts => tryExternalTools rest (attempts ++ [e])

/-- The final `RuntimeError` message of `_load_heic_as_pillow_image`
(base.py lines 156-159). -/
def heicFailureMessage (path details : String) : String :=
  "Failed to decode HEIC image \x27" ++ path ++ "\x27 after multiple attempts."
    ++ (if details = "" then "" else " Details: " ++ details)

/-- `_load_heic_as_pillow_image` (base.py lines 84-144): primary decode,
decode with `reload_size=True`, lower-level `read_heif`, permissive-header
`Image.open`, then the external tools; the `Details:` string is computed from
`attempts` *before* the external tools run. -/
def load_heic_as_pillow_image (path : String)
    (try1 try2 : TryOpenResult) (try3 try4 : Except String Nat)
    (externalTools : List (Except String Nat)) : Except String Nat :=
  match try1 with
  | .ok img => .ok img
  | .raised m => .error m
  | .collect m1 =>
    match try2 with
    | .ok img => .ok img
    | .raised m => .error m
    | .collect m2 =>
      match try3 with
      | .ok img => .ok img
      | .error m3 =>
        match try4 with
        | .ok img => .ok img
        | .error m4 =>
          let attempts := [m1, m2, m3, m4]
          let details := heicDetails attempts
          match (tryExternalTools externalTools attempts).1 with
          | some img => .ok img
          | none => .error (heicFailureMessage path details)

/-! ### Basic lemmas about the filter -/

theorem mem_insertSorted {x y : String} {l : List String} :
    y ∈ insertSorted x l ↔ y = x ∨ y ∈ l := by
  induction l with
  | nil => simp [insertSorted]
  | cons z zs ih =>
    by_cases h : pyStrLe x z = true
    · simp [insertSorted, h]
    · simp [insertSorted, h, ih]
      tauto

theorem mem_pySorted {y : String} {l : List String} :
    y ∈ pySorted l ↔ y ∈ l := by
  induction l with
  | nil => simp [pySorted]
  | cons z zs ih => simp [pySorted, mem_insertSorted, ih]

/-- Unfolding: an ineligible head is skipped. -/
theorem selectTasksAux_cons_skip_ext {p : String} {rest existing : List String}
    (he : eligible p = false) :
    selectTasksAux (p :: rest) existing = selectTasksAux rest existing := by
  simp [selectTasksAux, he]

/-- Unfolding: a head whose derived output name is already reserved is
skipped. -/
theorem selectTasksAux_cons_skip_mem {p : String} {rest existing : List String}
    (he : eligible p = true) (hm : filterOutputFn p ∈ existing) :
    selectTasksAux (p :: rest) existing = selectTasksAux rest existing := by
  simp [selectTasksAux, he, hm]

/-- Unfolding: an eligible head with an unreserved derived output name is
dispatched and its name reserved. -/
theorem selectTasksAux_cons_new {p : String} {rest existing : List String}
    (he : eligible p = true) (hm : filterOutputFn p ∉ existing) :
    selectTasksAux (p :: rest) existing =
      ((p :: (selectTasksAux rest (filterOutputFn p :: existing)).1),
        (selectTasksAux rest (filterOutputFn p :: existing)).2) := by
  simp [selectTasksAux, he, hm]

/-- Every dispatched entry is eligible and came from the walked listing. -/
theorem selectTasksAux_mem {l existing : List String} {t : String}
    (h : t ∈ (selectTasksAux l existing).1) :
    t ∈ l ∧ eligible t = true := by
  induction l generalizing existing with
  | nil => simp [selectTasksAux] at h
  | cons p rest ih =>
    by_cases he : eligible p
    · by_cases hm : filterOutputFn p ∈ existing
      · rw [selectTasksAux_cons_skip_mem he hm] at h
        rcases ih h with ⟨h1, h2⟩
        exact ⟨List.mem_cons_of_mem _ h1, h2⟩
      · rw [selectTasksAux_cons_new he hm] at h
        rcases List.mem_cons.1 h with rfl | h'
        · exact ⟨List.mem_cons_self _ _, he⟩
        · rcases ih h' with ⟨h1, h2⟩
          exact ⟨List.mem_cons_of_mem _ h1, h2⟩
    · rw [selectTasksAux_cons_skip_ext (by simpa using he)] at h
      rcases ih h with ⟨h1, h2⟩
      exact ⟨List.mem_cons_of_mem _ h1, h2⟩

/-- Reservation invariant of the filter loop: the derived output names of the
dispatched entries are pairwise distinct, and none of them was present in the
`existing` set the loop started from. -/
theorem selectTasksAux_nodup (l : List String) (existing : List String) :
    ((selectTasksAux l existing).1.map filterOutputFn).Nodup ∧
      ∀ t ∈ (selectTasksAux l existing).1, filterOutputFn t ∉ existing := by
  induction l generalizing existing with
  | nil => simp [selectTasksAux]
  | cons p rest ih =>
    by_cases he : eligible p
    · by_cases hm : filterOutputFn p ∈ existing
      · simpa [selectTasksAux_cons_skip_mem he hm] using ih existing
      · rcases ih (filterOutputFn p :: existing) with ⟨ihn, ihm⟩
        rw [selectTasksAux_cons_new he hm]
        refine ⟨?_, ?_⟩
        · simp only [List.map_cons, List.nodup_cons]
          refine ⟨?_, ihn⟩
          intro hc
          rcases List.mem_map.1 hc with ⟨t, ht, hteq⟩
          exact (ihm t ht) (hteq ▸ List.mem_cons_self _ _)
        · intro t ht
          rcases List.mem_cons.1 ht with rfl | ht'
          · exact hm
          · exact fun hc => (ihm t ht') (List.mem_cons_of_mem _ hc)
    · simpa [selectTasksAux_cons_skip_ext (by simpa using he)] using ih existing

/-- Coverage invariant of the filter loop: every eligible entry of the walked
listing ends up with its derived output name either already in the starting
`existing` set or among the derived names of the dispatched entries. -/
theorem selectTasksAux_covers {l : List String} (existing : List String)
    {p : String} (hp : p ∈ l) (he : eligible p = true) :
    filterOutputFn p ∈ existing ∨
      filterOutputFn p ∈ (selectTasksAux l existing).1.map filterOutputFn := by
  induction l generalizing existing with
  | nil => simp at hp
  | cons q rest ih =>
    by_cases hqe : eligible q
    · by_cases hm : filterOutputFn q ∈ existing
      · rcases List.mem_cons.1 hp with rfl | hp'
        · exact Or.inl hm
        · simpa [selectTasksAux_cons_skip_mem hqe hm] using ih existing hp'
      · rw [selectTasksAux_cons_new hqe hm]
        rcases List.mem_cons.1 hp with rfl | hp'
        · simp
        · rcases ih (filterOutputFn q :: existing) hp' with h | h
          · rcases List.mem_cons.1 h with h' | h'
            · simp [h']
            · exact Or.inl h'
          · simp only [List.map_cons]
            exact Or.inr (List.mem_cons_of_mem _ h)
    · rcases List.mem_cons.1 hp with rfl | hp'
      · exact absurd he (by simpa using hqe)
      · simpa [selectTasksAux_cons_skip_ext (by simpa using hqe)] using
          ih existing hp'

/-- If every eligible entry of the listing already has its derived output name
in the `existing` set, the filter loop dispatches nothing. -/
theorem selectTasksAux_eq_nil {l existing : List String}
    (h : ∀ p ∈ l, eligible p = true → filterOutputFn p ∈ existing) :
    (selectTasksAux l existing).1 = [] := by
  induction l with
  | nil => simp [selectTasksAux]
  | cons p rest ih =>
    by_cases he : eligible p
    · have hm : filterOutputFn p ∈ existing := h p (List.mem_cons_self _ _) he
      rw [selectTasksAux_cons_skip_mem he hm]
      exact ih fun q hq hqe => h q (List.mem_cons_of_mem _ hq) hqe
    · rw [selectTasksAux_cons_skip_ext (by simpa using he)]
      exact ih fun q hq hqe => h q (List.mem_cons_of_mem _ hq) hqe

/-! ### Scheduler lemmas -/

/-- Updating a list entry trades its contribution to `countP` for the new
entry's contribution. -/
theorem countP_set_trade {α : Type} (q : α → Bool) :
    ∀ (l : List α) (i : Nat) (a b : α), l[i]? = some a →
      (l.set i b).countP q + (if q a then 1 else 0) =
        l.countP q + (if q b then 1 else 0) := by
  intro l
  induction l with
  | nil => intro i a b h; simp at h
  | cons x xs ih =>
    intro i a b h
    cases i with
    | zero =>
      simp only [List.getElem?_cons_zero, Option.some_inj] at h
      subst h
      simp [List.countP_cons]
      omega
    | succ j =>
      simp only [List.getElem?_cons_succ] at h
      have := ih j a b h
      simp [List.countP_cons]
      omega

/-- `countP` over a replicated list. -/
theorem countP_replicate {α : Type} (q : α → Bool) (n : Nat) (a : α) :
    (List.replicate n a).countP q = n * (if q a then 1 else 0) := by
  induction n with
  | zero => simp
  | succ m ih =>
    by_cases h : q a <;>
      simp [List.replicate_succ, List.countP_cons, ih, h, Nat.mul_succ]

/-- The semaphore invariant is preserved by every scheduler step. -/
theorem invariant_step {N : Nat} {s t : SchedState} (hstep : SchedStep s t)
    (hle : runningCount s ≤ N) (hsem : s.sem = some (N - runningCount s)) :
    runningCount t ≤ N ∧ t.sem = some (N - runningCount t) := by
  cases hstep with
  | start i hph hfree =>
    have hk : ∃ k, s.sem = some (k + 1) := by
      rcases hfree with hnone | hk
      · rw [hsem] at hnone; exact absurd hnone (by simp)
      · exact hk
    rcases hk with ⟨k, hk⟩
    rw [hsem] at hk
    have hklt : runningCount s < N := by
      have : N - runningCount s = k + 1 := by simpa using hk
      omega
    have htrade := countP_set_trade (fun ph => ph == TaskPhase.running)
      s.phases i TaskPhase.pending TaskPhase.running hph
    simp at htrade
    have hrc : runningCount ⟨s.phases.set i TaskPhase.running, semAcquired s.sem⟩ =
        runningCount s + 1 := by
      simp only [runningCount] at htrade ⊢
      omega
    constructor
    · rw [hrc]; omega
    · rw [hrc, hsem]
      simp only [semAcquired, Option.some_inj]
      omega
  | finish i hph =>
    have hmem : TaskPhase.running ∈ s.phases := List.getElem?_mem hph
    have hpos : 0 < runningCount s := by
      simp only [runningCount]
      rw [List.countP_pos_iff]
      exact ⟨TaskPhase.running, hmem, rfl⟩
    have htrade := countP_set_trade (fun ph => ph == TaskPhase.running)
      s.phases i TaskPhase.running TaskPhase.done hph
    simp at htrade
    have hrc : runningCount ⟨s.phases.set i TaskPhase.done, semReleased s.sem⟩ =
        runningCount s - 1 := by
      simp only [runningCount] at htrade ⊢
      omega
    constructor
    · rw [hrc]; omega
    · rw [hrc, hsem]
      simp only [semReleased, Option.some_inj]
      omega

/-- Semaphore invariant: with a semaphore of `N` permits, every reachable
state has at most `N` running tasks and the free-permit count accounts for
them exactly. -/
theorem reachable_semaphore_invariant {n N : Nat} {s : SchedState}
    (h : Reachable n (some N) s) :
    runningCount s ≤ N ∧ s.sem = some (N - runningCount s) := by
  induction h with
  | refl =>
    constructor
    · simp [initState, runningCount, countP_replicate]
    · simp [initState, runningCount, countP_replicate]
  | tail _ hstep ih => exact invariant_step hstep ih.1 ih.2

/-- Element lookup in the middle of a replicate-append state. -/
theorem getElem?_replicate_append_mid {α : Type} (x y : α) (k : Nat)
    (rest : List α) :
    (List.replicate k x ++ y :: rest)[k]? = some y := by
  induction k with
  | zero => simp
  | succ m ih => simp only [List.replicate_succ, List.cons_append,
      List.getElem?_cons_succ]; exact ih

/-- Setting the middle entry of a replicate-append state. -/
theorem set_replicate_append_mid {α : Type} (x y v : α) (k : Nat)
    (rest : List α) :
    (List.replicate k x ++ y :: rest).set k v =
      List.replicate k x ++ v :: rest := by
  induction k with
  | zero => simp
  | succ m ih => simp only [List.replicate_succ, List.cons_append,
      List.set_cons_succ]; rw [ih]

/-- Any prefix of the tasks can be brought to the running phase
simultaneously, as long as the semaphore (if any) has that many permits:
reaches the state with `k` running tasks and `n - k` still pending. -/
theorem reach_k_running (n : Nat) (sem : Option Nat) :
    ∀ k, k ≤ n → (sem = none ∨ ∃ N, sem = some N ∧ k ≤ N) →
      Reachable n sem
        ⟨List.replicate k TaskPhase.running ++
          List.replicate (n - k) TaskPhase.pending, semMinus sem k⟩ := by
  intro k
  induction k with
  | zero =>
    intro _ _
    have hs : semMinus sem 0 = sem := by
      cases sem <;> simp [semMinus]
    rw [hs]
    simpa [initState] using Relation.ReflTransGen.refl
  | succ m ih =>
    intro hle hsem
    have hm : m ≤ n := Nat.le_of_succ_le hle
    have hsem' : sem = none ∨ ∃ N, sem = some N ∧ m ≤ N := by
      rcases hsem with h | ⟨N, hN, hkN⟩
      · exact Or.inl h
      · exact Or.inr ⟨N, hN, Nat.le_of_succ_le hkN⟩
    have hreach := ih hm hsem'
    have hnm : n - m = (n - (m + 1)) + 1 := by omega
    rw [hnm, List.replicate_succ] at hreach
    have hstep := SchedStep.start
      ⟨List.replicate m TaskPhase.running ++
        TaskPhase.pending :: List.replicate (n - (m + 1)) TaskPhase.pending,
        semMinus sem m⟩ m
      (getElem?_replicate_append_mid _ _ _ _)
      (by
        rcases hsem with h | ⟨N, hN, hkN⟩
        · subst h; exact Or.inl rfl
        · subst hN
          exact Or.inr ⟨N - (m + 1), by simp [semMinus]; omega⟩)
    rw [set_replicate_append_mid] at hstep
    have hfinal := Relation.ReflTransGen.tail hreach hstep
    have hphases : List.replicate m TaskPhase.running ++
        TaskPhase.running :: List.replicate (n - (m + 1)) TaskPhase.pending =
        List.replicate (m + 1) TaskPhase.running ++
          List.replicate (n - (m + 1)) TaskPhase.pending := by
      rw [List.replicate_succ' (n := m)]
      simp
    have hsemEq : semAcquired (semMinus sem m) = semMinus sem (m + 1) := by
      cases sem <;> simp [semAcquired, semMinus]
      omega
    rw [hphases, hsemEq] at hfinal
    exact hfinal

/-- The running count of the canonical `k`-running state is `k`. -/
theorem runningCount_k_state (k r : Nat) (sem : Option Nat) :
    runningCount ⟨List.replicate k TaskPhase.running ++
      List.replicate r TaskPhase.pending, sem⟩ = k := by
  simp [runningCount, List.countP_append, countP_replicate]

/-- `takeWhile` of a list all of whose elements satisfy the predicate,
followed by a failing element. -/
theorem takeWhile_append_stop (q : Char → Bool) (l1 l2 : List Char)
    (h1 : ∀ c ∈ l1, q c = true) (h2 : q '.' = false) :
    (l1 ++ '.' :: l2).takeWhile q = l1 := by
  induction l1 with
  | nil => simp [List.takeWhile_cons, h2]
  | cons c cs ih =>
    have hc : q c = true := h1 c (List.mem_cons_self _ _)
    simp only [List.cons_append, List.takeWhile_cons, hc, if_true]
    rw [ih fun d hd => h1 d (List.mem_cons_of_mem _ hd)]

/-- `path.split('.')[0]` of `stem ++ "." ++ ext` is `stem` whenever the stem
itself contains no dot. -/
theorem dotSplitHead_append (stem ext : String)
    (h : ∀ c ∈ stem.data, c ≠ '.') :
    dotSplitHead (stem ++ "." ++ ext) = stem := by
  obtain ⟨l⟩ := stem
  show String.mk _ = String.mk l
  congr 1
  have hd : (String.mk l ++ "." ++ ext).data = l ++ '.' :: ext.data := by
    simp [String.data_append]
  rw [hd]
  exact takeWhile_append_stop _ l ext.data
    (fun c hc => decide_eq_true (h c hc)) (by decide)

/-! ## Claims -/

/-- C1: during a `run_on_folder` run with a configured concurrency bound
`N > 0`, every reachable scheduler state has at most `N` conversion tasks
executing their network-bound conversion step simultaneously; and with the
bound `None`, no semaphore exists and no limit is enforced: any number of the
dispatched tasks, up to all of them, can be in flight at one instant. -/
theorem run_on_folder_concurrency_bound :
    (∀ inputs existing N s, 0 < N →
        (run_on_folder inputs existing (some N)).ReachableState s →
        runningCount s ≤ N) ∧
    (∀ inputs existing,
        (run_on_folder inputs existing none).sem = none ∧
        ∀ k, k ≤ (run_on_folder inputs existing none).tasks.length →
          ∃ s, (run_on_folder inputs existing none).ReachableState s ∧
            runningCount s = k) := by
  constructor
  · intro inputs existing N s hN hreach
    have hsem : mkSemaphore (some N) = some N := by
      simp [mkSemaphore, Nat.pos_iff_ne_zero.1 hN]
    simp only [FolderRun.ReachableState, run_on_folder, hsem] at hreach
    exact (reachable_semaphore_invariant hreach).1
  · intro inputs existing
    refine ⟨rfl, ?_⟩
    intro k hk
    refine ⟨⟨List.replicate k TaskPhase.running ++
      List.replicate ((run_on_folder inputs existing none).tasks.length - k)
        TaskPhase.pending, semMinus none k⟩, ?_, ?_⟩
    · exact reach_k_running _ none k hk (Or.inl rfl)
    · exact runningCount_k_state _ _ _

/-- C1 witness: with two dispatched tasks and bound 1, the initial state is
reachable and respects the bound. -/
theorem run_on_folder_concurrency_bound_witness :
    runningCount (initState 2 (some 1)) ≤ 1 :=
  run_on_folder_concurrency_bound.1 ["a.jpg", "b.png"] [] 1
    (initState 2 (some 1)) (by decide) Relation.ReflTransGen.refl

/-- C10: `max_concurrency = 0` is falsy in Python, so `run_on_folder` creates
no semaphore at all — a run with bound `0` is identical to a run with bound
`None`, and conversions are completely unthrottled: any number of the
dispatched tasks can be running simultaneously. -/
theorem run_on_folder_zero_bound_unthrottled :
    (∀ inputs existing,
        (run_on_folder inputs existing (some 0)).sem = none ∧
        run_on_folder inputs existing (some 0) =
          run_on_folder inputs existing none) ∧
    (∀ inputs existing k,
        k ≤ (run_on_folder inputs existing (some 0)).tasks.length →
          ∃ s, (run_on_folder inputs existing (some 0)).ReachableState s ∧
            runningCount s = k) := by
  constructor
  · exact fun inputs existing => ⟨rfl, rfl⟩
  · intro inputs existing k hk
    refine ⟨⟨List.replicate k TaskPhase.running ++
      List.replicate ((run_on_folder inputs existing (some 0)).tasks.length - k)
        TaskPhase.pending, semMinus none k⟩, ?_, ?_⟩
    · exact reach_k_running _ none k hk (Or.inl rfl)
    · exact runningCount_k_state _ _ _

/-- C10 witness: with one dispatched task and bound 0, a state with that task
in flight is reachable (nothing is blocked). -/
theorem run_on_folder_zero_bound_unthrottled_witness :
    ∃ s, (run_on_folder ["a.jpg"] [] (some 0)).ReachableState s ∧
      runningCount s = 1 :=
  run_on_folder_zero_bound_unthrottled.2 ["a.jpg"] [] 1 (by decide)

/-- C9 counterexample: `run_on_folder_sync` is `asyncio.run(run_on_folder(...))`
with the same arguments, so under its default bound of 5 it still creates a
semaphore of 5 and a state with two conversions simultaneously in flight is
reachable — refuting "at most one conversion is in flight at a time and no
concurrent task-dispatch machinery is used". -/
theorem run_on_folder_sync_concurrent_counterexample :
    (run_on_folder_sync ["a.jpg", "b.png"] [] (some 5)).sem = some 5 ∧
    ∃ s, (run_on_folder_sync ["a.jpg", "b.png"] [] (some 5)).ReachableState s ∧
      runningCount s = 2 := by
  refine ⟨rfl, ⟨⟨List.replicate 2 TaskPhase.running ++
    List.replicate 0 TaskPhase.pending, semMinus (some 5) 2⟩, ?_, ?_⟩⟩
  · have h := reach_k_running 2 (some 5) 2 (Nat.le_refl 2)
      (Or.inr ⟨5, rfl, by omega⟩)
    simpa using h
  · exact runningCount_k_state _ _ _

/-- C9 amended: `run_on_folder_sync` is a *blocking wrapper* around the
concurrent orchestrator, not a strictly sequential mode: it performs exactly
the same filter/convert/write pipeline (the whole run description is
identical for every argument), and whenever at least two tasks are dispatched
under its default bound of 5 a state with two conversions simultaneously in
flight is reachable. -/
theorem run_on_folder_sync_wrapper (inputs existing : List String)
    (mc : Option Nat)
    (h2 : 2 ≤ (run_on_folder_sync inputs existing (some 5)).tasks.length) :
    run_on_folder_sync inputs existing mc = run_on_folder inputs existing mc ∧
    ∃ s, (run_on_folder_sync inputs existing (some 5)).ReachableState s ∧
      runningCount s = 2 := by
  refine ⟨rfl, ⟨⟨List.replicate 2 TaskPhase.running ++
    List.replicate ((run_on_folder_sync inputs existing (some 5)).tasks.length - 2)
      TaskPhase.pending, semMinus (some 5) 2⟩, ?_, ?_⟩⟩
  · exact reach_k_running _ (some 5) 2 h2 (Or.inr ⟨5, rfl, by omega⟩)
  · exact runningCount_k_state _ _ _

/-- C9 witness for the amended claim, at a concrete two-file run. -/
theorem run_on_folder_sync_wrapper_witness :
    run_on_folder_sync ["a.jpg", "b.png"] [] (some 3) =
        run_on_folder ["a.jpg", "b.png"] [] (some 3) ∧
    ∃ s, (run_on_folder_sync ["a.jpg", "b.png"] [] (some 5)).ReachableState s ∧
      runningCount s = 2 :=
  run_on_folder_sync_wrapper ["a.jpg", "b.png"] [] (some 3) (by decide)

/-- C2: the orchestrator is idempotent.  If a run completes with every
dispatched task converted (so the output directory lists exactly the snapshot
plus the newly written outputs), a second `run_on_folder` over the same input
listing dispatches zero conversion tasks: every eligible input's derived
output name is already in the second run's snapshot. -/
theorem run_on_folder_idempotent (inputs existing outs2 : List String)
    (mc : Option Nat)
    (hsnap : ∀ d, d ∈ outs2 ↔ d ∈ outputsAfterRun inputs existing) :
    (run_on_folder inputs outs2 mc).tasks = [] := by
  show dispatchedTasks inputs outs2 = []
  apply selectTasksAux_eq_nil
  intro p hp hpe
  rw [hsnap]
  have hcov := selectTasksAux_covers existing hp hpe
  simp only [outputsAfterRun, dispatchedTasks]
  rcases hcov with h | h
  · exact List.mem_append_right _ h
  · exact List.mem_append_left _ h

/-- C2 witness: a concrete second run over an unchanged directory pair
dispatches nothing. -/
theorem run_on_folder_idempotent_witness :
    (run_on_folder ["a.jpg", "b.png", "c.txt"]
      (outputsAfterRun ["a.jpg", "b.png", "c.txt"] []) (some 5)).tasks = [] :=
  run_on_folder_idempotent ["a.jpg", "b.png", "c.txt"] []
    (outputsAfterRun ["a.jpg", "b.png", "c.txt"] []) (some 5)
    (fun _ => Iff.rfl)

/-- C3: the derived output name is reserved in the snapshot set at filtering
time, before any conversion runs.  For two eligible same-stem inputs (the
only two inputs deriving that output name) whose derived name is not in the
starting snapshot, exactly one of the two is dispatched, and the run writes
that output name exactly once — never twice. -/
theorem same_stem_single_dispatch (inputs existing : List String)
    (p1 p2 : String) (h1 : p1 ∈ inputs) (h2 : p2 ∈ inputs) (hne : p1 ≠ p2)
    (he1 : eligible p1 = true) (he2 : eligible p2 = true)
    (hsame : filterOutputFn p1 = filterOutputFn p2)
    (hnew : filterOutputFn p1 ∉ existing)
    (honly : ∀ q ∈ inputs, filterOutputFn q = filterOutputFn p1 →
      q = p1 ∨ q = p2) :
    ((dispatchedTasks inputs existing).map filterOutputFn).count
        (filterOutputFn p1) = 1 ∧
      ((p1 ∈ dispatchedTasks inputs existing ∧
          p2 ∉ dispatchedTasks inputs existing) ∨
        (p2 ∈ dispatchedTasks inputs existing ∧
          p1 ∉ dispatchedTasks inputs existing)) := by
  have hnodup := (selectTasksAux_nodup (pySorted inputs) existing).1
  have hcov := selectTasksAux_covers existing (mem_pySorted.2 h1) he1
  have hmem : filterOutputFn p1 ∈
      (dispatchedTasks inputs existing).map filterOutputFn := by
    rcases hcov with h | h
    · exact absurd h hnew
    · exact h
  have hinj := List.inj_on_of_nodup_map (f := filterOutputFn) hnodup
  refine ⟨List.count_eq_one_of_mem hnodup hmem, ?_⟩
  rcases List.mem_map.1 hmem with ⟨q, hq, hfq⟩
  have hqin : q ∈ inputs := mem_pySorted.1 (selectTasksAux_mem hq).1
  rcases honly q hqin hfq with rfl | rfl
  · exact Or.inl ⟨hq, fun hc2 => hne (hinj hq hc2 hsame)⟩
  · exact Or.inr ⟨hq, fun hc1 => hne (hinj hc1 hq hsame)⟩

/-- C3 witness: `note.jpg` and `note.png` in one run, empty output snapshot:
exactly one is dispatched and `output_note.txt` is written exactly once. -/
theorem same_stem_single_dispatch_witness :
    ((dispatchedTasks ["note.jpg", "note.png"] []).map filterOutputFn).count
        (filterOutputFn "note.jpg") = 1 ∧
      (("note.jpg" ∈ dispatchedTasks ["note.jpg", "note.png"] [] ∧
          "note.png" ∉ dispatchedTasks ["note.jpg", "note.png"] []) ∨
        ("note.png" ∈ dispatchedTasks ["note.jpg", "note.png"] [] ∧
          "note.jpg" ∉ dispatchedTasks ["note.jpg", "note.png"] [])) :=
  same_stem_single_dispatch ["note.jpg", "note.png"] [] "note.jpg" "note.png"
    (by decide) (by decide) (by decide) (by decide) (by decide) (by decide)
    (by decide) (by decide)

/-- C5 counterexample: for the input `a.b.jpg` the code derives
`output_a.txt` (everything after the *first* dot is discarded), not
`output_a.b.txt` as removing only the final extension would give. -/
theorem output_name_final_extension_counterexample :
    filterOutputFn "a.b.jpg" = "output_a.txt" ∧
      convertPathOutputFn "a.b.jpg" = "output_a.txt" ∧
      filterOutputFn "a.b.jpg" ≠ "output_a.b.txt" := by
  refine ⟨by decide, by decide, by decide⟩

/-- C5 amended: the derived output filename is `output_<X>.txt` where `X` is
the part of the input filename before its *first* dot; the same derivation is
used both at the skip-check site and at the write site; and it agrees with
"basename without the final extension" exactly in the common case where the
part before the extension contains no dot. -/
theorem output_name_derivation :
    (∀ p, convertPathOutputFn p = filterOutputFn p) ∧
    (∀ p, filterOutputFn p = "output_" ++ dotSplitHead p ++ ".txt") ∧
    (∀ stem ext : String, (∀ c ∈ stem.data, c ≠ '.') →
        filterOutputFn (stem ++ "." ++ ext) = "output_" ++ stem ++ ".txt") := by
  refine ⟨fun _ => rfl, fun _ => rfl, ?_⟩
  intro stem ext h
  show "output_" ++ dotSplitHead (stem ++ "." ++ ext) ++ ".txt" = _
  rw [dotSplitHead_append stem ext h]

/-- C5 amended-claim witness at a single-dot filename. -/
theorem output_name_derivation_witness :
    convertPathOutputFn "note.jpg" = filterOutputFn "note.jpg" ∧
      filterOutputFn ("note" ++ "." ++ "jpg") = "output_" ++ "note" ++ ".txt" :=
  ⟨output_name_derivation.1 "note.jpg",
    output_name_derivation.2.2 "note" "jpg" (by decide)⟩

/-- C6: an input entry whose lowercased final extension is not in the
supported set is never dispatched: the run creates no conversion task for it,
so no network call and no output write happen on its behalf. -/
theorem unsupported_extension_no_task (inputs existing : List String)
    (mc : Option Nat) (p : String) (_hp : p ∈ inputs)
    (hunsupported : pyLower (splitextExt p) ∉ supported_extensions) :
    p ∉ (run_on_folder inputs existing mc).tasks := by
  intro hc
  have he : eligible p = true := (selectTasksAux_mem hc).2
  exact hunsupported (of_decide_eq_true he)

/-- C6 witness: `c.txt` is not dispatched. -/
theorem unsupported_extension_no_task_witness :
    "c.txt" ∉ (run_on_folder ["a.jpg", "b.png", "c.txt"] [] (some 5)).tasks :=
  unsupported_extension_no_task ["a.jpg", "b.png", "c.txt"] [] (some 5) "c.txt"
    (by decide) (by decide)

/-- C4: `convert_image_from_path` never touches the destination unless the
read succeeded: when reader construction (normalization) or `read()` fails,
the filesystem is returned exactly as it was — the destination path is
neither created nor overwritten. -/
theorem convert_image_failure_leaves_destination (prompt : String)
    (encodeResult : Except String NormalizedImage)
    (readResult : MistralOCRReader → Except String String)
    (save_path : String) (fs : FileSystem) (e : String)
    (h : (convert_image_from_path prompt encodeResult readResult save_path fs).1
        = .error e) :
    (convert_image_from_path prompt encodeResult readResult save_path fs).2
      = fs := by
  cases encodeResult with
  | error e' => rfl
  | ok img =>
    cases hr : readResult ⟨prompt, img.encoded, img.mime⟩ with
    | error e' =>
      simp [convert_image_from_path, mkMistralOCRReader, hr]
    | ok txt =>
      exfalso
      simp [convert_image_from_path, mkMistralOCRReader, hr] at h

/-- C4 witness: a failing normalization leaves the pre-existing destination
content untouched. -/
theorem convert_image_failure_leaves_destination_witness :
    (convert_image_from_path "p" (.error "DecodeError")
      (fun _ => .error "BackendError") "out.txt" [("out.txt", "old")]).2
      = [("out.txt", "old")] :=
  convert_image_failure_leaves_destination "p" (.error "DecodeError")
    (fun _ => .error "BackendError") "out.txt" [("out.txt", "old")]
    "DecodeError" rfl

/-- C7: both reader variants normalize the image while constructing the
instance: a failed normalization makes construction fail with that error and
the whole construct-then-read pipeline issues zero network requests; a
successful construction stores exactly the normalized image, and the requests
later issued by `read()` embed that stored image. -/
theorem readers_normalize_at_construction :
    (∀ prompt model_name heic_fmt e respond,
        gptConstructAndRead prompt model_name heic_fmt (.error e) respond
          = ([], .error e)) ∧
    (∀ prompt e ocrRespond chatRespond,
        mistralConstructAndRead prompt (.error e) ocrRespond chatRespond
          = ([], .error e)) ∧
    (∀ prompt model_name heic_fmt img,
        mkGPTImageReader prompt model_name heic_fmt (.ok img)
          = .ok ⟨prompt, model_name, pyLower heic_fmt, img.encoded, img.mime⟩) ∧
    (∀ prompt img,
        mkMistralOCRReader prompt (.ok img) = .ok ⟨prompt, img.encoded, img.mime⟩) ∧
    (∀ prompt model_name heic_fmt img respond,
        (gptConstructAndRead prompt model_name heic_fmt (.ok img) respond).1
          = [⟨"https://api.openai.com/v1/chat/completions",
              dataUrl img.mime img.encoded⟩]) ∧
    (∀ prompt img ocrRespond chatRespond,
        ((mistralConstructAndRead prompt (.ok img) ocrRespond chatRespond).1.map
          NetworkRequest.payload).head? = some (dataUrl img.mime img.encoded)) :=
  ⟨fun _ _ _ _ _ => rfl, fun _ _ _ _ => rfl, fun _ _ _ _ => rfl,
    fun _ _ => rfl, fun _ _ _ _ _ => rfl, fun _ _ _ _ => rfl⟩

set_option maxRecDepth 4096 in
/-- C8: evaluation of the decode fallback chain at an input where every
Python-level strategy fails and the one available external tool also fails.
The external tool's message is appended to the shared `attempts` list, yet
the raised error's `Details:` section — computed *before* the external tools
ran — omits it. -/
theorem heic_error_message_drops_external_messages :
    load_heic_as_pillow_image "img.heic"
        (.collect "primary: boom") (.collect "primary: boom")
        (.error "read_heif: boom") (.error "plugin: boom")
        [.error "magick: boom"]
      = .error ("Failed to decode HEIC image \x27img.heic\x27 after multiple attempts. Details: primary: boom; read_heif: boom; plugin: boom") ∧
    (tryExternalTools [.error "magick: boom"]
        ["primary: boom", "primary: boom", "read_heif: boom", "plugin: boom"]).2
      = ["primary: boom", "primary: boom", "read_heif: boom", "plugin: boom",
          "magick: boom"] ∧
    ¬ ("magick: boom".data <:+:
        ("Failed to decode HEIC image \x27img.heic\x27 after multiple attempts. Details: primary: boom; read_heif: boom; plugin: boom").data) := by
  refine ⟨rfl, rfl, by decide⟩

end Papyrus
